import Mathlib

/-!
Verification development for the sync/evict task engine of `syncdbapp.py`.

The Python source is shallowly embedded: paths are component lists, file
modification times are integers, the target directory tree is an association
list from path to mtime, and the asynchronous process-wide stop flag is
modelled by a schedule `stopAt`: the i-th read of the flag returns true
exactly when `stopAt = some k` with `k ≤ i` (the flag is set once and then
stays set, so reads are monotone in time).  External effects (the
`shutil.copy2` call and the `cloudfile evict` subprocess) are modelled by
oracles recording, per path, whether the call raises.
-/

namespace SyncDB

/-- A filesystem path, as a list of components. -/
abbrev Path := List String

/-- A scan candidate: `(source path, source modification time)`,
mirroring the `(filepath, modification_time)` tuples of `taskFiles`. -/
abbrev Cand := Path × Int

/-- The target directory tree: an association list from target path to the
mtime currently stored there (`none` lookup means the path does not exist). -/
abbrev Tree := List (Path × Int)

/-- Environment of a run: the stop-flag schedule and the outcome oracles for
the external effects. `stopAt = some k` means the k-th flag read (0-based)
and all later ones return true. -/
structure Env where
  stopAt : Option Nat
  copyFails : Path → Bool
  evictOk1 : Path → Bool
  evictOk2 : Path → Bool

/-- Reading `self.stop_requested` at read-index `i`. -/
def stopRead (s : Option Nat) (i : Nat) : Bool :=
  match s with
  | none => false
  | some k => decide (k ≤ i)

/-- First-match lookup in the target tree (`os.path.exists` plus
`os.path.getmtime`). -/
def lookupTree : Tree → Path → Option Int
  | [], _ => none
  | (q, m) :: rest, p => if q = p then some m else lookupTree rest p

/-- Re-rooting of a source path under the target directory:
`os.path.join(target_dir, os.path.relpath(source_path, source_dir))`. -/
def targetPath (srcDir tgtDir : Path) (p : Path) : Path :=
  tgtDir ++ p.drop srcDir.length

/-- The copy decision of line 530 of the source:
`not os.path.exists(target_path) or source_mtime > os.path.getmtime(target_path)`. -/
def shouldCopy (tree : Tree) (tp : Path) (m : Int) : Bool :=
  match lookupTree tree tp with
  | none => true
  | some tm => decide (tm < m)

/-- Mutable state threaded through `sync_to_target_and_evict`:
the two counters, the `evict_retry` list, the target tree, the log of evictor
invocations `(target path, succeeded)`, and the flag-read index. -/
structure SyncSt where
  copied : Nat
  evicted : Nat
  retry : List Path
  tree : Tree
  calls : List (Path × Bool)
  polls : Nat

/-- Processing of one candidate inside the main loop (lines 516-556 of the
source), after the stop-flag check: re-root the path, decide whether to copy,
copy (possibly raising, in which case nothing is counted), and on a fresh
copy with eviction enabled invoke the evictor, counting a success or
recording the target path in `evict_retry` on a subprocess error. -/
def stepCand (env : Env) (srcDir tgtDir : Path) (runEvict : Bool)
    (p : Path) (m : Int) (st : SyncSt) : SyncSt :=
  let st0 : SyncSt := { st with polls := st.polls + 1 }
  let tp := targetPath srcDir tgtDir p
  if shouldCopy st0.tree tp m then
    if env.copyFails p then
      st0
    else
      let st1 : SyncSt := { st0 with tree := (tp, m) :: st0.tree, copied := st0.copied + 1 }
      if runEvict then
        let ok := env.evictOk1 tp
        { st1 with
          calls := st1.calls ++ [(tp, ok)]
          evicted := if ok then st1.evicted + 1 else st1.evicted
          retry := if ok then st1.retry else st1.retry ++ [tp] }
      else st1
  else st0

/-- The main candidate loop of `sync_to_target_and_evict` (lines 508-556):
before each candidate the stop flag is read, and if it is set the loop stops,
returning the state accumulated so far with a cancelled marker. -/
def processCands (env : Env) (srcDir tgtDir : Path) (runEvict : Bool) :
    List Cand → SyncSt → SyncSt × Bool
  | [], st => (st, false)
  | (p, m) :: rest, st =>
    if stopRead env.stopAt st.polls then (st, true)
    else processCands env srcDir tgtDir runEvict rest (stepCand env srcDir tgtDir runEvict p m st)

/-- The batched eviction-retry pass (lines 559-575): each recorded path gets
exactly one further evictor invocation; a success increments `evicted_count`,
a failure is only logged.  The loop performs no stop-flag read. -/
def retryPass (env : Env) : List Path → SyncSt → SyncSt
  | [], st => st
  | tp :: rest, st =>
    let ok := env.evictOk2 tp
    retryPass env rest
      { st with
        calls := st.calls ++ [(tp, ok)]
        evicted := if ok then st.evicted + 1 else st.evicted }

/-- Result of `sync_to_target_and_evict`: the returned counters plus the
observable state (final target tree, recorded retry list, evictor call log,
whether the run was cut short by cancellation, final flag-read index). -/
structure SyncResult where
  copied : Nat
  evicted : Nat
  retryRecorded : List Path
  tree : Tree
  calls : List (Path × Bool)
  cancelled : Bool
  pollsEnd : Nat

/-- The initial state of the main candidate loop: zero counters, empty
retry list and call log, the given target tree and starting read index. -/
def initSyncSt (tree : Tree) (polls0 : Nat) : SyncSt :=
  { copied := 0, evicted := 0, retry := [], tree := tree, calls := [], polls := polls0 }

/-- Model of `sync_to_target_and_evict` (lines 480-578 of the source): guard on
`run_copy`, run the main candidate loop, and unless it was cancelled run the
batched retry pass over the recorded eviction failures. -/
def sync_to_target_and_evict (env : Env) (runCopy runEvict : Bool)
    (srcDir tgtDir : Path) (cands : List Cand) (tree : Tree) (polls0 : Nat) : SyncResult :=
  if runCopy then
    let r := processCands env srcDir tgtDir runEvict cands (initSyncSt tree polls0)
    if r.2 then
      { copied := r.1.copied, evicted := r.1.evicted, retryRecorded := r.1.retry
        tree := r.1.tree, calls := r.1.calls, cancelled := true, pollsEnd := r.1.polls }
    else
      let st' := retryPass env r.1.retry r.1
      { copied := st'.copied, evicted := st'.evicted, retryRecorded := r.1.retry
        tree := st'.tree, calls := st'.calls, cancelled := false, pollsEnd := st'.polls }
  else
    { copied := 0, evicted := 0, retryRecorded := [], tree := tree, calls := []
      cancelled := false, pollsEnd := polls0 }

/-- One ignore rule of the `ignore` config sequence: optional lists of
case-insensitive prefix and suffix patterns. -/
structure IgnoreRule where
  startswith : List String
  endswith : List String

/-- Model of `should_ignore` (lines 404-416 of the source): lower-case the name, then
in rule order test every prefix pattern and every suffix pattern
(lower-cased); true on the first match. -/
def should_ignore (rules : List IgnoreRule) (name : String) : Bool :=
  let fl := name.toLower
  rules.any fun r =>
    r.startswith.any (fun pat => fl.startsWith pat.toLower) ||
    r.endswith.any (fun pat => fl.endsWith pat.toLower)

/-- Numeric value of a decimal digit character. -/
def dval (c : Char) : Int := (c.toNat : Int) - 48

/-- Whether a character is a decimal digit. -/
def isDig (c : Char) : Bool := decide (48 ≤ c.toNat) && decide (c.toNat ≤ 57)

/-- Monotone encoding of a broken-down local time into a single integer,
standing in for `time.mktime`: strictly increasing in the lexicographic
order of valid `(year, month, day, hour, minute, second)` tuples. -/
def encodeTime (y mo da h mi se : Int) : Int :=
  ((((y * 12 + (mo - 1)) * 31 + (da - 1)) * 24 + h) * 60 + mi) * 60 + se

/-- Model of `time.strptime(s, "%Y-%m-%d %H:%M:%S")` followed by `time.mktime`:
succeeds only on a 19-character `YYYY-MM-DD HH:MM:SS` string with in-range
fields, and raises (returns `none`) on anything else — in particular on the
empty string. -/
def strptime19 (s : String) : Option Int :=
  match s.data with
  | [y1, y2, y3, y4, a1, o1, o2, a2, e1, e2, a3, h1, h2, a4, i1, i2, a5, c1, c2] =>
    if a1 = '-' ∧ a2 = '-' ∧ a3 = ' ' ∧ a4 = ':' ∧ a5 = ':' ∧
       isDig y1 ∧ isDig y2 ∧ isDig y3 ∧ isDig y4 ∧
       isDig o1 ∧ isDig o2 ∧ isDig e1 ∧ isDig e2 ∧
       isDig h1 ∧ isDig h2 ∧ isDig i1 ∧ isDig i2 ∧ isDig c1 ∧ isDig c2 then
      let y := dval y1 * 1000 + dval y2 * 100 + dval y3 * 10 + dval y4
      let mo := dval o1 * 10 + dval o2
      let da := dval e1 * 10 + dval e2
      let hh := dval h1 * 10 + dval h2
      let mi := dval i1 * 10 + dval i2
      let se := dval c1 * 10 + dval c2
      if 1 ≤ mo ∧ mo ≤ 12 ∧ 1 ≤ da ∧ da ≤ 31 ∧ hh ≤ 23 ∧ mi ≤ 59 ∧ se ≤ 61 then
        some (encodeTime y mo da hh mi se)
      else none
    else none
  | _ => none

mutual
/-- A source filesystem entry, as observed by `walktree`:
a regular file with its `st_mtime` and `st_ctime`; a directory whose listing
either succeeds (`listable = true`) or raises; an entry of any other type
(device, socket, symlink, ...); or an entry on which `os.lstat` raises. -/
inductive FS where
  | file (name : String) (mtime ctime : Int) : FS
  | dir (name : String) (listable : Bool) (children : FSL) : FS
  | other (name : String) : FS
  | badstat (name : String) : FS
/-- The listing of a directory: a list of entries, mutual with `FS`. -/
inductive FSL where
  | nil : FSL
  | cons (e : FS) (l : FSL) : FSL
end

/-- Builds a directory listing from a plain list of entries. -/
def fsl : List FS → FSL
  | [] => FSL.nil
  | e :: l => FSL.cons e (fsl l)

/-- State threaded through the scan: flag-read index, the accumulating
candidate list (`taskFiles`), the warning log of skipped unknown entry
types, and the error log of `walktree` exception handlers. -/
structure ScanSt where
  polls : Nat
  files : List (Path × Int)
  warns : List Path
  errs : List Path

/-- Outcome of one `walktree` listing loop: completed normally (`ok`,
Python `return True`), saw the stop flag (`stopped`, Python `return False`),
or an exception escaped the loop body (`raised`). -/
inductive WalkRes where
  | ok : WalkRes
  | stopped : WalkRes
  | raised : WalkRes
deriving DecidableEq

/-- The per-entry loop of `walktree` (lines 424-454 of the source), over the
listing of one directory.  For each entry: read the stop flag (stop with
`stopped` if set); `os.lstat` (an `lstat` failure raises out of the loop);
directories and regular files are first filtered by `should_ignore`;
directories recurse — the recursive call catches its own exceptions, so it
yields `ok` or `stopped` only, and `stopped` propagates; a regular file is
appended to the candidate list when its mtime or ctime is strictly above the
watermark; any other entry type is logged as a warning and skipped. -/
def walkList (env : Env) (rules : List IgnoreRule) (wm : Int) :
    FSL → Path → ScanSt → ScanSt × WalkRes
  | FSL.nil, _, st => (st, WalkRes.ok)
  | FSL.cons (FS.badstat _) _, _, st =>
    if stopRead env.stopAt st.polls then (st, WalkRes.stopped)
    else ({ st with polls := st.polls + 1 }, WalkRes.raised)
  | FSL.cons (FS.other nm) rest, parent, st =>
    if stopRead env.stopAt st.polls then (st, WalkRes.stopped)
    else
      walkList env rules wm rest parent
        { st with polls := st.polls + 1, warns := st.warns ++ [parent ++ [nm]] }
  | FSL.cons (FS.file nm mt ct) rest, parent, st =>
    if stopRead env.stopAt st.polls then (st, WalkRes.stopped)
    else
      let st0 : ScanSt := { st with polls := st.polls + 1 }
      if should_ignore rules nm then walkList env rules wm rest parent st0
      else
        let st1 : ScanSt :=
          if wm < mt ∨ wm < ct then
            { st0 with files := st0.files ++ [(parent ++ [nm], mt)] }
          else st0
        walkList env rules wm rest parent st1
  | FSL.cons (FS.dir nm listable children) rest, parent, st =>
    if stopRead env.stopAt st.polls then (st, WalkRes.stopped)
    else
      let st0 : ScanSt := { st with polls := st.polls + 1 }
      if should_ignore rules nm then walkList env rules wm rest parent st0
      else
        let pr :=
          if listable then
            match walkList env rules wm children (parent ++ [nm]) st0 with
            | (st', WalkRes.raised) =>
              ({ st' with errs := st'.errs ++ [parent ++ [nm]] }, WalkRes.ok)
            | out => out
          else ({ st0 with errs := st0.errs ++ [parent ++ [nm]] }, WalkRes.ok)
        match pr with
        | (st2, WalkRes.stopped) => (st2, WalkRes.stopped)
        | (st2, _) => walkList env rules wm rest parent st2

/-- One `walktree` invocation on a directory (lines 418-459 of the source):
the whole listing loop sits in one `try`; a failing `os.listdir` or an
exception escaping the loop is logged against this directory and the
function still returns `True` (`ok`). -/
def walkDirectory (env : Env) (rules : List IgnoreRule) (wm : Int)
    (dirPath : Path) (listable : Bool) (children : FSL) (st : ScanSt) :
    ScanSt × WalkRes :=
  if listable then
    match walkList env rules wm children dirPath st with
    | (st', WalkRes.raised) => ({ st' with errs := st'.errs ++ [dirPath] }, WalkRes.ok)
    | out => out
  else ({ st with errs := st.errs ++ [dirPath] }, WalkRes.ok)

/-- The log line of a cancelled scan (line 477 of the source). -/
def scanCancelMsg : String := "Scan cancelled by user."

/-- The log line of a completed scan (line 473 of the source). -/
def scanFoundMsg (n : Nat) : String :=
  "Found " ++ toString n ++ " files to (potentially) sync"

/-- Outcome of `scan_source_for_sync` after the watermark was parsed:
the returned count, the persisted candidate list, whether the run was
cancelled, the final log line, and the observable scan state. -/
structure ScanOutcome where
  count : Nat
  files : List (Path × Int)
  cancelled : Bool
  finalLog : String
  pollsEnd : Nat
  warns : List Path
  errs : List Path

/-- The body of `scan_source_for_sync` after watermark parsing
(lines 470-478 of the source): walk the source tree; on normal completion
the candidate list is persisted and its length returned; on cancellation the
candidate list is reset to empty, zero is returned, and the distinct
cancellation message is logged. -/
def scanRun (env : Env) (rules : List IgnoreRule) (wm : Int)
    (srcDir : Path) (rootListable : Bool) (rootChildren : FSL) : ScanOutcome :=
  let r := walkDirectory env rules wm srcDir rootListable rootChildren
    { polls := 0, files := [], warns := [], errs := [] }
  if r.2 = WalkRes.stopped then
    { count := 0, files := [], cancelled := true, finalLog := scanCancelMsg
      pollsEnd := r.1.polls, warns := r.1.warns, errs := r.1.errs }
  else
    { count := r.1.files.length, files := r.1.files, cancelled := false
      finalLog := scanFoundMsg r.1.files.length
      pollsEnd := r.1.polls, warns := r.1.warns, errs := r.1.errs }

/-- One task definition from the config file. -/
structure TaskCfg where
  source : Path
  target : Path
  synced : Option String
  ignore : List IgnoreRule

/-- Model of `scan_source_for_sync` (lines 380-478 of the source), including its
entry sequence: `self.taskConfigs[task_id-1]['synced']` raises `KeyError`
when the key is absent, and `time.strptime(..., "%Y-%m-%d %H:%M:%S")`
raises `ValueError` when the string does not match the format (in
particular when it is empty); only then does the walk start. -/
def scan_source_for_sync (env : Env) (cfg : TaskCfg)
    (rootListable : Bool) (rootChildren : FSL) : Except String ScanOutcome :=
  match cfg.synced with
  | none => Except.error "KeyError: synced"
  | some s =>
    match strptime19 s with
    | none => Except.error "ValueError: time data does not match format"
    | some wm =>
      Except.ok (scanRun env cfg.ignore wm cfg.source rootListable rootChildren)

/-- Result of one `run_task_logic` worker run: the (possibly updated) task
config, the scan count, the pipeline counters, the value of the stop flag at
the final watermark decision, and the reported status line. -/
structure RunResult where
  cfg : TaskCfg
  filesToSync : Nat
  copied : Nat
  evicted : Nat
  stopEnd : Bool
  status : String

/-- Model of `run_task_logic` (lines 326-377 of the source): nothing runs unless
`run_scan` is set; the scan result of zero reports cancelled or
no-files and leaves the config untouched; with `run_copy` set the pipeline
runs, and the watermark `synced` is overwritten with the completion time
`tNow` exactly when `files_synced` is nonzero and the stop flag reads false
afterwards; a scan-only run also leaves the config untouched. -/
def run_task_logic (env : Env) (runScan runCopy runEvict : Bool) (cfg : TaskCfg)
    (rootListable : Bool) (rootChildren : FSL) (tree : Tree) (tNow : String) :
    Except String RunResult :=
  if runScan then
    match scan_source_for_sync env cfg rootListable rootChildren with
    | Except.error e => Except.error e
    | Except.ok sc =>
      if sc.count = 0 then
        let stopNow := stopRead env.stopAt sc.pollsEnd
        Except.ok
          { cfg := cfg, filesToSync := 0, copied := 0, evicted := 0, stopEnd := stopNow
            status := if stopNow then "Scan cancelled." else "No files to sync." }
      else if runCopy then
        let pr := sync_to_target_and_evict env runCopy runEvict
          cfg.source cfg.target sc.files tree sc.pollsEnd
        let stopNow := stopRead env.stopAt pr.pollsEnd
        if pr.copied = 0 ∨ stopNow = true then
          Except.ok
            { cfg := cfg, filesToSync := sc.count, copied := pr.copied
              evicted := pr.evicted, stopEnd := stopNow
              status := if stopNow then "Sync cancelled." else "No files were copied/synced." }
        else
          Except.ok
            { cfg := { cfg with synced := some tNow }, filesToSync := sc.count
              copied := pr.copied, evicted := pr.evicted, stopEnd := stopNow
              status := "Scan and Sync completed." }
      else
        Except.ok
          { cfg := cfg, filesToSync := sc.count, copied := 0, evicted := 0
            stopEnd := false, status := "Scan completed." }
  else
    Except.ok
      { cfg := cfg, filesToSync := 0, copied := 0, evicted := 0
        stopEnd := false, status := "idle" }

/-- The three process-wide stage flags. -/
structure Flags where
  scan : Bool
  copy : Bool
  evict : Bool
deriving DecidableEq

/-- A checkbox toggle event carrying the checkbox's new checked state. -/
inductive CbEvent where
  | setScan : Bool → CbEvent
  | setCopy : Bool → CbEvent
  | setEvict : Bool → CbEvent

/-- The initial flag values of the application (lines 78-80 of the source). -/
def initFlags : Flags := { scan := true, copy := true, evict := false }

/-- Model of `on_checkbox` (lines 598-623 of the source): unchecking Scan also clears
Copy and Evict; checking Copy also sets Scan, unchecking it clears Evict;
checking Evict also sets Copy (and nothing else — programmatic `SetValue`
fires no further checkbox events). -/
def on_checkbox (f : Flags) : CbEvent → Flags
  | CbEvent.setScan b =>
    if b then { f with scan := true }
    else { scan := false, copy := false, evict := false }
  | CbEvent.setCopy b =>
    if b then { f with copy := true, scan := true }
    else { f with copy := false, evict := false }
  | CbEvent.setEvict b =>
    if b then { f with evict := true, copy := true }
    else { f with evict := false }

/-! ### Helper lemmas about the copy/evict pipeline -/

/-- The target paths whose first eviction attempt failed, read off the
evictor call log. -/
def failedCalls (calls : List (Path × Bool)) : List Path :=
  (calls.filter fun pc => !pc.2).map Prod.fst

@[simp] lemma initSyncSt_copied (tree : Tree) (p0 : Nat) :
    (initSyncSt tree p0).copied = 0 := rfl

@[simp] lemma initSyncSt_evicted (tree : Tree) (p0 : Nat) :
    (initSyncSt tree p0).evicted = 0 := rfl

@[simp] lemma initSyncSt_retry (tree : Tree) (p0 : Nat) :
    (initSyncSt tree p0).retry = [] := rfl

@[simp] lemma initSyncSt_calls (tree : Tree) (p0 : Nat) :
    (initSyncSt tree p0).calls = [] := rfl

@[simp] lemma initSyncSt_tree (tree : Tree) (p0 : Nat) :
    (initSyncSt tree p0).tree = tree := rfl

@[simp] lemma initSyncSt_polls (tree : Tree) (p0 : Nat) :
    (initSyncSt tree p0).polls = p0 := rfl

lemma stepCand_polls (env : Env) (sd td : Path) (re : Bool) (p : Path) (m : Int)
    (st : SyncSt) : (stepCand env sd td re p m st).polls = st.polls + 1 := by
  simp only [stepCand]
  split_ifs <;> rfl

lemma stepCand_inv (env : Env) (sd td : Path) (re : Bool) (p : Path) (m : Int)
    (st : SyncSt) :
    (stepCand env sd td re p m st).evicted + (stepCand env sd td re p m st).retry.length
        + st.copied ≤
      st.evicted + st.retry.length + (stepCand env sd td re p m st).copied := by
  simp only [stepCand]
  split_ifs <;> cases h : env.evictOk1 (targetPath sd td p) <;> simp [h] <;> omega

lemma stepCand_retryChar (env : Env) (sd td : Path) (re : Bool) (p : Path) (m : Int)
    (st : SyncSt) (h : st.retry = failedCalls st.calls) :
    (stepCand env sd td re p m st).retry = failedCalls (stepCand env sd td re p m st).calls := by
  simp only [stepCand]
  split_ifs <;> simp [failedCalls, List.filter_append, h, *]

lemma processCands_inv (env : Env) (sd td : Path) (re : Bool) (cands : List Cand)
    (st : SyncSt) :
    (processCands env sd td re cands st).1.evicted
        + (processCands env sd td re cands st).1.retry.length + st.copied ≤
      st.evicted + st.retry.length + (processCands env sd td re cands st).1.copied := by
  induction cands generalizing st with
  | nil => simp [processCands]
  | cons c rest ih =>
    obtain ⟨p, m⟩ := c
    simp only [processCands]
    by_cases h : stopRead env.stopAt st.polls = true
    · simp [h]
    · simp only [h, if_false, Bool.not_eq_true] at *
      rw [if_neg (by simp [h])]
      have h1 := ih (stepCand env sd td re p m st)
      have h2 := stepCand_inv env sd td re p m st
      omega

lemma processCands_retryChar (env : Env) (sd td : Path) (re : Bool) (cands : List Cand)
    (st : SyncSt) (h : st.retry = failedCalls st.calls) :
    (processCands env sd td re cands st).1.retry =
      failedCalls (processCands env sd td re cands st).1.calls := by
  induction cands generalizing st with
  | nil => simpa [processCands]
  | cons c rest ih =>
    obtain ⟨p, m⟩ := c
    simp only [processCands]
    by_cases hs : stopRead env.stopAt st.polls = true
    · simpa [hs]
    · rw [if_neg (by simp [hs])]
      exact ih _ (stepCand_retryChar env sd td re p m st h)

lemma processCands_not_cancelled (env : Env) (sd td : Path) (re : Bool)
    (cands : List Cand) (st : SyncSt) (h : env.stopAt = none) :
    (processCands env sd td re cands st).2 = false := by
  induction cands generalizing st with
  | nil => simp [processCands]
  | cons c rest ih =>
    obtain ⟨p, m⟩ := c
    simp only [processCands]
    rw [if_neg (by simp [stopRead, h])]
    exact ih _

lemma retryPass_copied (env : Env) (l : List Path) (st : SyncSt) :
    (retryPass env l st).copied = st.copied := by
  induction l generalizing st with
  | nil => rfl
  | cons tp rest ih => simp [retryPass, ih]

lemma retryPass_tree (env : Env) (l : List Path) (st : SyncSt) :
    (retryPass env l st).tree = st.tree := by
  induction l generalizing st with
  | nil => rfl
  | cons tp rest ih => simp [retryPass, ih]

lemma retryPass_calls (env : Env) (l : List Path) (st : SyncSt) :
    (retryPass env l st).calls = st.calls ++ l.map fun q => (q, env.evictOk2 q) := by
  induction l generalizing st with
  | nil => simp [retryPass]
  | cons tp rest ih => simp [retryPass, ih]

lemma retryPass_evicted (env : Env) (l : List Path) (st : SyncSt) :
    (retryPass env l st).evicted =
      st.evicted + (l.filter fun q => env.evictOk2 q).length := by
  induction l generalizing st with
  | nil => simp [retryPass]
  | cons tp rest ih =>
    cases h : env.evictOk2 tp <;> simp [retryPass, ih, h, List.filter_cons]
    all_goals omega

/-! ### Claim C10: evicted count never exceeds copied count -/

/-- Claim C10: in every run of the copy/evict pipeline — any candidate list,
target tree, stop-flag schedule and copy/evict failure pattern — the
returned `evicted_count` is at most `copied_count`: evictions are only ever
attempted for copies counted in this run, and each such copy contributes at
most one eviction success between the first attempt and the single retry. -/
theorem evicted_le_copied (env : Env) (runCopy runEvict : Bool) (sd td : Path)
    (cands : List Cand) (tree : Tree) (polls0 : Nat) :
    (sync_to_target_and_evict env runCopy runEvict sd td cands tree polls0).evicted ≤
      (sync_to_target_and_evict env runCopy runEvict sd td cands tree polls0).copied := by
  unfold sync_to_target_and_evict
  cases runCopy with
  | false => simp
  | true =>
    have hinv := processCands_inv env sd td runEvict cands (initSyncSt tree polls0)
    simp only [initSyncSt_copied, initSyncSt_evicted, initSyncSt_retry,
      List.length_nil] at hinv
    have hre := retryPass_evicted env
      (processCands env sd td runEvict cands (initSyncSt tree polls0)).1.retry
      (processCands env sd td runEvict cands (initSyncSt tree polls0)).1
    have hrc := retryPass_copied env
      (processCands env sd td runEvict cands (initSyncSt tree polls0)).1.retry
      (processCands env sd td runEvict cands (initSyncSt tree polls0)).1
    have hlen := List.length_filter_le (fun q => env.evictOk2 q)
      (processCands env sd td runEvict cands (initSyncSt tree polls0)).1.retry
    by_cases hc : (processCands env sd td runEvict cands (initSyncSt tree polls0)).2 = true
    · simp only [if_true, hc, if_pos]
      omega
    · simp only [if_true, hc, Bool.false_eq_true, if_false]
      omega

/-! ### Claim C5: cancellation polling in the pipeline -/

/-- Counterexample to claim C5: with the stop flag set from read-index 1 on
(that is, set right after the only candidate's poll), the single candidate's
failed first eviction is still retried — the evictor is invoked a second
time although every flag read from index 1 on returns true; the claim's
assertion that the flag is polled before every entry of the eviction retry
list is false. -/
theorem retry_pass_runs_after_stop_set :
    (sync_to_target_and_evict ⟨some 1, fun _ => false, fun _ => false, fun _ => false⟩
        true true ["s"] ["t"] [(["s", "a"], 5)] [] 0).calls
      = [(["t", "a"], false), (["t", "a"], false)]
  ∧ (sync_to_target_and_evict ⟨some 1, fun _ => false, fun _ => false, fun _ => false⟩
        true true ["s"] ["t"] [(["s", "a"], 5)] [] 0).pollsEnd = 1
  ∧ stopRead (some 1) 1 = true := by
  exact ⟨rfl, rfl, rfl⟩

/-- Claim C5 (amended): the main loop reads the stop flag before each
candidate and, once the flag is observed, processes nothing further and the
function returns the counts accumulated so far without running the retry
pass; the eviction retry list, however, is never polled: when the main loop
completes all candidates, every recorded retry entry is processed (exactly
one evictor call each) regardless of the stop flag. -/
theorem stop_ends_main_loop_but_retry_pass_never_polls :
    (∀ env sd td re p m rest st, stopRead env.stopAt st.polls = true →
       processCands env sd td re ((p, m) :: rest) st = (st, true))
  ∧ (∀ env l st, (retryPass env l st).calls =
       st.calls ++ l.map fun q => (q, env.evictOk2 q))
  ∧ (∀ env re sd td cands tree polls0,
       (processCands env sd td re cands (initSyncSt tree polls0)).2 = true →
       (sync_to_target_and_evict env true re sd td cands tree polls0).copied =
           (processCands env sd td re cands (initSyncSt tree polls0)).1.copied
         ∧ (sync_to_target_and_evict env true re sd td cands tree polls0).evicted =
           (processCands env sd td re cands (initSyncSt tree polls0)).1.evicted
         ∧ (sync_to_target_and_evict env true re sd td cands tree polls0).calls =
           (processCands env sd td re cands (initSyncSt tree polls0)).1.calls) := by
  refine ⟨?_, retryPass_calls, ?_⟩
  · intro env sd td re p m rest st h
    simp [processCands, h]
  · intro env re sd td cands tree polls0 h
    unfold sync_to_target_and_evict
    simp [h]

/-- Witness for `stop_ends_main_loop_but_retry_pass_never_polls`: a main
loop whose first poll reads true returns immediately, and a cancelled run
returns the accumulated counts. -/
theorem stop_ends_main_loop_witness :
    processCands ⟨some 0, fun _ => false, fun _ => true, fun _ => true⟩ ["s"] ["t"] true
        [(["s", "a"], 5)] (initSyncSt [] 0) = (initSyncSt [] 0, true)
  ∧ (sync_to_target_and_evict ⟨some 0, fun _ => false, fun _ => true, fun _ => true⟩
        true true ["s"] ["t"] [(["s", "a"], 5)] [] 0).copied =
      (processCands ⟨some 0, fun _ => false, fun _ => true, fun _ => true⟩ ["s"] ["t"] true
        [(["s", "a"], 5)] (initSyncSt [] 0)).1.copied :=
  ⟨stop_ends_main_loop_but_retry_pass_never_polls.1
      ⟨some 0, fun _ => false, fun _ => true, fun _ => true⟩ ["s"] ["t"] true
      ["s", "a"] 5 [] (initSyncSt [] 0) rfl,
   (stop_ends_main_loop_but_retry_pass_never_polls.2.2
      ⟨some 0, fun _ => false, fun _ => true, fun _ => true⟩ true ["s"] ["t"]
      [(["s", "a"], 5)] [] 0 rfl).1⟩

/-! ### Claim C3: eviction failures are retried exactly once -/

/-- Claim C3: in a run that is never cancelled, a failed first eviction does
not undo the copy (`copied_count` is unchanged by the retry pass and every
recorded retry stems from a counted copy, so `evicted + |retry| ≤ copied`);
the recorded retry list is exactly the set of first-attempt eviction
failures in order; the retry pass invokes the evictor exactly once per
recorded path — appending precisely one call per entry, with no third
attempt — and each retry success increments `evicted_count` while a retry
failure only logs. -/
theorem evict_retry_once_after_failed_first_attempt
    (env : Env) (re : Bool) (sd td : Path) (cands : List Cand) (tree : Tree)
    (polls0 : Nat) (hstop : env.stopAt = none) :
    (sync_to_target_and_evict env true re sd td cands tree polls0).copied =
        (processCands env sd td re cands (initSyncSt tree polls0)).1.copied
  ∧ (sync_to_target_and_evict env true re sd td cands tree polls0).retryRecorded =
        (processCands env sd td re cands (initSyncSt tree polls0)).1.retry
  ∧ (processCands env sd td re cands (initSyncSt tree polls0)).1.retry =
        failedCalls (processCands env sd td re cands (initSyncSt tree polls0)).1.calls
  ∧ (sync_to_target_and_evict env true re sd td cands tree polls0).calls =
        (processCands env sd td re cands (initSyncSt tree polls0)).1.calls ++
          ((processCands env sd td re cands (initSyncSt tree polls0)).1.retry.map
            fun q => (q, env.evictOk2 q))
  ∧ (sync_to_target_and_evict env true re sd td cands tree polls0).evicted =
        (processCands env sd td re cands (initSyncSt tree polls0)).1.evicted +
          ((processCands env sd td re cands (initSyncSt tree polls0)).1.retry.filter
            fun q => env.evictOk2 q).length
  ∧ (processCands env sd td re cands (initSyncSt tree polls0)).1.evicted +
        (processCands env sd td re cands (initSyncSt tree polls0)).1.retry.length ≤
      (processCands env sd td re cands (initSyncSt tree polls0)).1.copied := by
  have hnc := processCands_not_cancelled env sd td re cands (initSyncSt tree polls0) hstop
  have hinv := processCands_inv env sd td re cands (initSyncSt tree polls0)
  have hchar := processCands_retryChar env sd td re cands (initSyncSt tree polls0)
    (by simp [initSyncSt, failedCalls])
  unfold sync_to_target_and_evict
  simp only [hnc, if_pos, Bool.false_eq_true, if_false]
  refine ⟨retryPass_copied _ _ _, trivial, hchar, retryPass_calls _ _ _,
    retryPass_evicted _ _ _, ?_⟩
  simp only [initSyncSt_copied, initSyncSt_evicted, initSyncSt_retry,
    List.length_nil] at hinv
  omega

/-- Witness for `evict_retry_once_after_failed_first_attempt`: one candidate
whose first eviction fails and whose retry succeeds — the copy stays
counted, the path is retried exactly once, and the retry success is added to
the evicted count. -/
theorem evict_retry_once_witness :
    (sync_to_target_and_evict ⟨none, fun _ => false, fun _ => false, fun _ => true⟩
        true true ["s"] ["t"] [(["s", "a"], 5)] [] 0).calls =
      (processCands ⟨none, fun _ => false, fun _ => false, fun _ => true⟩ ["s"] ["t"] true
        [(["s", "a"], 5)] (initSyncSt [] 0)).1.calls ++
        ((processCands ⟨none, fun _ => false, fun _ => false, fun _ => true⟩ ["s"] ["t"] true
          [(["s", "a"], 5)] (initSyncSt [] 0)).1.retry.map
            fun q => (q, (⟨none, fun _ => false, fun _ => false, fun _ => true⟩ : Env).evictOk2 q))
  ∧ (sync_to_target_and_evict ⟨none, fun _ => false, fun _ => false, fun _ => true⟩
        true true ["s"] ["t"] [(["s", "a"], 5)] [] 0).copied = 1
  ∧ (sync_to_target_and_evict ⟨none, fun _ => false, fun _ => false, fun _ => true⟩
        true true ["s"] ["t"] [(["s", "a"], 5)] [] 0).evicted = 1 :=
  ⟨(evict_retry_once_after_failed_first_attempt
      ⟨none, fun _ => false, fun _ => false, fun _ => true⟩ true ["s"] ["t"]
      [(["s", "a"], 5)] [] 0 rfl).2.2.2.1,
   rfl, rfl⟩

/-! ### Helper lemmas for claim C2 -/

lemma shouldCopy_true_iff (tree : Tree) (tp : Path) (m : Int) :
    shouldCopy tree tp m = true ↔
      (lookupTree tree tp = none ∨ ∃ tm, lookupTree tree tp = some tm ∧ tm < m) := by
  unfold shouldCopy
  cases hl : lookupTree tree tp <;> simp [hl]

lemma targetPath_inj (sd td p₁ p₂ : Path) (h₁ : sd <+: p₁) (h₂ : sd <+: p₂)
    (h : targetPath sd td p₁ = targetPath sd td p₂) : p₁ = p₂ := by
  obtain ⟨r₁, rfl⟩ := h₁
  obtain ⟨r₂, rfl⟩ := h₂
  unfold targetPath at h
  rw [List.drop_left, List.drop_left] at h
  rw [List.append_cancel_left h]

lemma stepCand_lookup_preserved (env : Env) (sd td : Path) (re : Bool) (p : Path)
    (m : Int) (st : SyncSt) (q : Path) (h : targetPath sd td p ≠ q) :
    lookupTree (stepCand env sd td re p m st).tree q = lookupTree st.tree q := by
  simp only [stepCand]
  split_ifs <;> simp [lookupTree, h]

lemma processCands_lookup_preserved (env : Env) (sd td : Path) (re : Bool)
    (cands : List Cand) (st : SyncSt) (q : Path)
    (h : ∀ c ∈ cands, targetPath sd td c.1 ≠ q) :
    lookupTree (processCands env sd td re cands st).1.tree q = lookupTree st.tree q := by
  induction cands generalizing st with
  | nil => simp [processCands]
  | cons c rest ih =>
    obtain ⟨p, m⟩ := c
    simp only [processCands]
    by_cases hs : stopRead env.stopAt st.polls = true
    · simp [hs]
    · rw [if_neg (by simp [hs])]
      rw [ih _ (fun c hc => h c (List.mem_cons_of_mem _ hc))]
      exact stepCand_lookup_preserved env sd td re p m st q (h (p, m) (List.mem_cons_self _ _))

lemma stepCand_covers (env : Env) (sd td : Path) (re : Bool) (p : Path) (m : Int)
    (st : SyncSt) (hcf : env.copyFails p = false) :
    ∃ tm, lookupTree (stepCand env sd td re p m st).tree (targetPath sd td p) = some tm
      ∧ m ≤ tm := by
  by_cases hsc : shouldCopy st.tree (targetPath sd td p) m = true
  · refine ⟨m, ?_, le_refl m⟩
    simp only [stepCand]
    rw [if_pos hsc, if_neg (by simp [hcf])]
    cases re <;> simp [lookupTree]
  · have : ∃ tm, lookupTree st.tree (targetPath sd td p) = some tm ∧ ¬tm < m := by
      unfold shouldCopy at hsc
      cases hl : lookupTree st.tree (targetPath sd td p) with
      | none => rw [hl] at hsc; simp at hsc
      | some tm => rw [hl] at hsc; simp at hsc; exact ⟨tm, rfl, by omega⟩
    obtain ⟨tm, hl, hge⟩ := this
    refine ⟨tm, ?_, by omega⟩
    simp only [stepCand]
    rw [if_neg (by simp [hsc])]
    simpa using hl

lemma processCands_covers (env : Env) (sd td : Path) (re : Bool)
    (hstop : env.stopAt = none) (hcf : ∀ q, env.copyFails q = false) :
    ∀ (cands : List Cand) (st : SyncSt),
      (cands.map fun c => targetPath sd td c.1).Nodup →
      ∀ c ∈ cands, ∃ tm,
        lookupTree (processCands env sd td re cands st).1.tree (targetPath sd td c.1)
            = some tm
          ∧ c.2 ≤ tm := by
  intro cands
  induction cands with
  | nil => intro st _ c hc; simp at hc
  | cons hd rest ih =>
    intro st hnodup c hc
    obtain ⟨p, m⟩ := hd
    simp only [processCands]
    rw [if_neg (by simp [stopRead, hstop])]
    rcases List.mem_cons.mp hc with rfl | hc
    · obtain ⟨tm, hl, hle⟩ := stepCand_covers env sd td re p m st (hcf p)
      refine ⟨tm, ?_, hle⟩
      have hne : ∀ c' ∈ rest, targetPath sd td c'.1 ≠ targetPath sd td p := by
        intro c' hc' hq
        have hmem : targetPath sd td c'.1 ∈ rest.map fun c => targetPath sd td c.1 :=
          List.mem_map_of_mem _ hc'
        rw [hq] at hmem
        simp only [List.map_cons, List.nodup_cons] at hnodup
        exact hnodup.1 hmem
      have hpres := processCands_lookup_preserved env sd td re rest
        (stepCand env sd td re p m st) (targetPath sd td p) hne
      exact hpres.trans hl
    · simp only [List.map_cons, List.nodup_cons] at hnodup
      exact ih _ hnodup.2 c hc

lemma stepCand_nocopy (env : Env) (sd td : Path) (re : Bool) (p : Path) (m : Int)
    (st : SyncSt) (h : shouldCopy st.tree (targetPath sd td p) m = false) :
    stepCand env sd td re p m st = { st with polls := st.polls + 1 } := by
  simp only [stepCand]
  rw [if_neg (by simp [h])]

lemma processCands_nocopy (env : Env) (sd td : Path) (re : Bool) :
    ∀ (cands : List Cand) (st : SyncSt),
      (∀ c ∈ cands, shouldCopy st.tree (targetPath sd td c.1) c.2 = false) →
      (processCands env sd td re cands st).1.copied = st.copied := by
  intro cands
  induction cands with
  | nil => intro st _; simp [processCands]
  | cons hd rest ih =>
    intro st h
    obtain ⟨p, m⟩ := hd
    simp only [processCands]
    by_cases hs : stopRead env.stopAt st.polls = true
    · simp [hs]
    · rw [if_neg (by simp [hs])]
      rw [stepCand_nocopy env sd td re p m st (h (p, m) (List.mem_cons_self _ _))]
      exact ih _ (fun c hc => h c (List.mem_cons_of_mem _ hc))

lemma sync_copied_eq (env : Env) (re : Bool) (sd td : Path) (cands : List Cand)
    (tree : Tree) (p0 : Nat) :
    (sync_to_target_and_evict env true re sd td cands tree p0).copied =
      (processCands env sd td re cands (initSyncSt tree p0)).1.copied := by
  unfold sync_to_target_and_evict
  by_cases hc : (processCands env sd td re cands (initSyncSt tree p0)).2 = true
  · simp [hc]
  · simp [hc, retryPass_copied]

/-! ### Claim C2: copy decision and idempotence -/

/-- Claim C2: (first part) a single candidate is copied — `copied_count` is
one — exactly when its re-rooted target path does not exist in the target
tree or the source mtime is strictly greater than the target's stored
mtime; (second part) after a complete, error-free run of the pipeline on a
candidate list with pairwise-distinct source paths below the source
directory, re-running the pipeline on the same candidate list against the
resulting target tree copies nothing: `copied_count = 0` for any second-run
environment and evict setting. -/
theorem copy_iff_missing_or_newer_and_idempotent :
    (∀ (env : Env) (re : Bool) (sd td p : Path) (m : Int) (tree : Tree),
       stopRead env.stopAt 0 = false → env.copyFails p = false →
       ((sync_to_target_and_evict env true re sd td [(p, m)] tree 0).copied = 1 ↔
         (lookupTree tree (targetPath sd td p) = none ∨
          ∃ tm, lookupTree tree (targetPath sd td p) = some tm ∧ tm < m)))
  ∧ (∀ (env1 env2 : Env) (re1 re2 : Bool) (sd td : Path) (cands : List Cand)
       (tree : Tree) (polls0 : Nat),
       env1.stopAt = none → (∀ q, env1.copyFails q = false) →
       (cands.map Prod.fst).Nodup → (∀ c ∈ cands, sd <+: c.1) →
       (sync_to_target_and_evict env2 true re2 sd td cands
           (sync_to_target_and_evict env1 true re1 sd td cands tree 0).tree
           polls0).copied = 0) := by
  constructor
  · intro env re sd td p m tree hstop hcf
    have h1 : processCands env sd td re [(p, m)] (initSyncSt tree 0) =
        (stepCand env sd td re p m (initSyncSt tree 0), false) := by
      simp only [processCands]
      rw [if_neg (by simp [hstop])]
    have hstep : (sync_to_target_and_evict env true re sd td [(p, m)] tree 0).copied =
        (stepCand env sd td re p m (initSyncSt tree 0)).copied := by
      unfold sync_to_target_and_evict
      rw [if_pos rfl, h1]
      simp only [Bool.false_eq_true, if_false]
      exact retryPass_copied _ _ _
    rw [hstep]
    constructor
    · intro h
      by_contra hcond
      have hsc : shouldCopy tree (targetPath sd td p) m = false := by
        cases hb : shouldCopy tree (targetPath sd td p) m
        · rfl
        · exact absurd ((shouldCopy_true_iff _ _ _).mp hb) hcond
      rw [stepCand_nocopy env sd td re p m _ (by simpa using hsc)] at h
      simp at h
    · intro hcond
      have hsc : shouldCopy tree (targetPath sd td p) m = true :=
        (shouldCopy_true_iff _ _ _).mpr hcond
      simp only [stepCand]
      rw [if_pos (by simpa using hsc), if_neg (by simp [hcf])]
      cases re <;> simp
  · intro env1 env2 re1 re2 sd td cands tree polls0 hstop hcf hnodup hpre
    have hnodupT : (cands.map fun c => targetPath sd td c.1).Nodup := by
      have hmm : (cands.map fun c => targetPath sd td c.1) =
          (cands.map Prod.fst).map (targetPath sd td) := by
        rw [List.map_map]
        rfl
      rw [hmm]
      refine List.Nodup.map_on ?_ hnodup
      intro x hx y hy hxy
      have hpx : sd <+: x := by
        obtain ⟨c, hc, rfl⟩ := List.mem_map.mp hx
        exact hpre c hc
      have hpy : sd <+: y := by
        obtain ⟨c, hc, rfl⟩ := List.mem_map.mp hy
        exact hpre c hc
      exact targetPath_inj sd td x y hpx hpy hxy
    have hcov := processCands_covers env1 sd td re1 hstop hcf cands
      (initSyncSt tree 0) hnodupT
    set T := (sync_to_target_and_evict env1 true re1 sd td cands tree 0).tree with hT
    have htree : T = (processCands env1 sd td re1 cands (initSyncSt tree 0)).1.tree := by
      rw [hT]
      unfold sync_to_target_and_evict
      rw [if_pos rfl,
        if_neg (by simp [processCands_not_cancelled env1 sd td re1 cands _ hstop])]
      exact retryPass_tree _ _ _
    have hnc2 : ∀ c ∈ cands, shouldCopy T (targetPath sd td c.1) c.2 = false := by
      intro c hc
      obtain ⟨tm, hl, hle⟩ := hcov c hc
      rw [htree]
      unfold shouldCopy
      rw [hl]
      simp only [decide_eq_false_iff_not]
      omega
    rw [sync_copied_eq]
    have hmain := processCands_nocopy env2 sd td re2 cands (initSyncSt T polls0)
      (by intro c hc; simpa using hnc2 c hc)
    simpa using hmain

/-- Witness for `copy_iff_missing_or_newer_and_idempotent`: one fresh
candidate is copied into an empty target tree, and the second run over the
resulting tree copies nothing. -/
theorem copy_iff_missing_or_newer_witness :
    ((sync_to_target_and_evict ⟨none, fun _ => false, fun _ => true, fun _ => true⟩
        true false ["s"] ["t"] [(["s", "a"], 5)] [] 0).copied = 1 ↔
      (lookupTree [] (targetPath ["s"] ["t"] ["s", "a"]) = none ∨
       ∃ tm, lookupTree [] (targetPath ["s"] ["t"] ["s", "a"]) = some tm ∧ tm < 5))
  ∧ (sync_to_target_and_evict ⟨none, fun _ => false, fun _ => true, fun _ => true⟩
        true false ["s"] ["t"] [(["s", "a"], 5)]
        (sync_to_target_and_evict ⟨none, fun _ => false, fun _ => true, fun _ => true⟩
          true false ["s"] ["t"] [(["s", "a"], 5)] [] 0).tree 7).copied = 0 :=
  ⟨copy_iff_missing_or_newer_and_idempotent.1
      ⟨none, fun _ => false, fun _ => true, fun _ => true⟩ false ["s"] ["t"]
      ["s", "a"] 5 [] rfl rfl,
   copy_iff_missing_or_newer_and_idempotent.2
      ⟨none, fun _ => false, fun _ => true, fun _ => true⟩
      ⟨none, fun _ => false, fun _ => true, fun _ => true⟩ false false ["s"] ["t"]
      [(["s", "a"], 5)] [] 7 rfl (fun _ => rfl) (by simp)
      (by intro c hc; simp at hc; rw [hc]; exact ⟨["a"], rfl⟩)⟩

/-! ### Claim C1: the watermark is set iff the run copied and was not stopped -/

lemma watermark_mono_cases (old new : Option String) (tNow : String)
    (h : new = old ∨ new = some tNow) :
    ∀ w tN, Option.bind old strptime19 = some w → strptime19 tNow = some tN →
      w ≤ tN → ∀ w', Option.bind new strptime19 = some w' → w ≤ w' := by
  intro w tN hw htN hle w' hw'
  rcases h with h | h
  · rw [h, hw] at hw'
    injection hw' with hw'
    omega
  · rw [h, show Option.bind (some tNow) strptime19 = strptime19 tNow from rfl,
      htN] at hw'
    injection hw' with hw'
    omega

/-- Claim C1: for every completed task run, the `synced` watermark is
overwritten with the run-completion time `tNow` exactly when the pipeline
returned `copied_count ≥ 1` and the stop flag read false afterwards; in
every other outcome — no candidates, scan cancelled, scan-only run, zero
copies, stop flag set — the config is returned untouched; consequently the
stored watermark is always either the old one or the completion time, and
it never decreases provided the completion time is at least the old
watermark. -/
theorem watermark_set_iff_copied_and_not_stopped
    (env : Env) (rs rc re : Bool) (cfg : TaskCfg) (lb : Bool) (ch : FSL)
    (tree : Tree) (tNow : String) (r : RunResult)
    (h : run_task_logic env rs rc re cfg lb ch tree tNow = Except.ok r) :
    (1 ≤ r.copied ∧ r.stopEnd = false → r.cfg.synced = some tNow)
  ∧ (r.copied = 0 ∨ r.stopEnd = true → r.cfg.synced = cfg.synced)
  ∧ (r.cfg.synced = cfg.synced ∨ r.cfg.synced = some tNow)
  ∧ (∀ w tN, Option.bind cfg.synced strptime19 = some w →
       strptime19 tNow = some tN → w ≤ tN →
       ∀ w', Option.bind r.cfg.synced strptime19 = some w' → w ≤ w') := by
  have key : (1 ≤ r.copied ∧ r.stopEnd = false → r.cfg.synced = some tNow)
      ∧ (r.copied = 0 ∨ r.stopEnd = true → r.cfg.synced = cfg.synced)
      ∧ (r.cfg.synced = cfg.synced ∨ r.cfg.synced = some tNow) := by
    unfold run_task_logic at h
    cases rs with
    | false =>
      rw [if_neg (by simp)] at h
      injection h with h
      subst h
      refine ⟨?_, ?_, ?_⟩
      · rintro ⟨h1, h2⟩
        dsimp only at h1
        omega
      · intro _; rfl
      · left; rfl
    | true =>
      rw [if_pos rfl] at h
      cases hsc : scan_source_for_sync env cfg lb ch with
      | error e =>
        rw [hsc] at h
        exact absurd h (by simp)
      | ok sc =>
        rw [hsc] at h
        dsimp only at h
        by_cases hcount : sc.count = 0
        · rw [if_pos hcount] at h
          injection h with h
          subst h
          refine ⟨?_, ?_, ?_⟩
          · rintro ⟨h1, h2⟩
            dsimp only at h1
            omega
          · intro _; rfl
          · left; rfl
        · rw [if_neg hcount] at h
          cases rc with
          | false =>
            rw [if_neg (by simp)] at h
            injection h with h
            subst h
            refine ⟨?_, ?_, ?_⟩
            · rintro ⟨h1, h2⟩
              dsimp only at h1
              omega
            · intro _; rfl
            · left; rfl
          | true =>
            rw [if_pos rfl] at h
            by_cases hcond : (sync_to_target_and_evict env true re cfg.source cfg.target
                  sc.files tree sc.pollsEnd).copied = 0 ∨
                stopRead env.stopAt (sync_to_target_and_evict env true re cfg.source
                  cfg.target sc.files tree sc.pollsEnd).pollsEnd = true
            · rw [if_pos hcond] at h
              injection h with h
              subst h
              refine ⟨?_, ?_, ?_⟩
              · rintro ⟨h1, h2⟩
                dsimp only at h1 h2
                rcases hcond with hc | hc
                · omega
                · rw [hc] at h2
                  simp at h2
              · intro _; rfl
              · left; rfl
            · rw [if_neg hcond] at h
              injection h with h
              subst h
              refine ⟨?_, ?_, ?_⟩
              · intro _; rfl
              · intro hor
                dsimp only at hor
                exact absurd hor hcond
              · right; rfl
  exact ⟨key.1, key.2.1, key.2.2,
    watermark_mono_cases cfg.synced r.cfg.synced tNow key.2.2⟩

/-- Witness for `watermark_set_iff_copied_and_not_stopped`: a concrete full
run — valid watermark, one fresh file found, copied and evicted with no
cancellation — ends with `synced` set to the completion time. -/
theorem watermark_set_iff_witness :
    run_task_logic ⟨none, fun _ => false, fun _ => true, fun _ => true⟩ true true true
        { source := ["s"], target := ["t"], synced := some "2000-01-01 00:00:00",
          ignore := [] }
        true (fsl [FS.file "a" 1000000000000 0]) [] "2026-02-02 00:00:00"
      = Except.ok
        { cfg := { source := ["s"], target := ["t"],
                   synced := some "2026-02-02 00:00:00", ignore := [] }
          filesToSync := 1, copied := 1, evicted := 1, stopEnd := false
          status := "Scan and Sync completed." }
  ∧ ({ cfg := { source := ["s"], target := ["t"],
                synced := some "2026-02-02 00:00:00", ignore := [] }
       filesToSync := 1, copied := 1, evicted := 1, stopEnd := false
       status := "Scan and Sync completed." } : RunResult).cfg.synced
      = some "2026-02-02 00:00:00" :=
  have hrun : run_task_logic ⟨none, fun _ => false, fun _ => true, fun _ => true⟩
      true true true
      { source := ["s"], target := ["t"], synced := some "2000-01-01 00:00:00",
        ignore := [] }
      true (fsl [FS.file "a" 1000000000000 0]) [] "2026-02-02 00:00:00"
    = Except.ok
      { cfg := { source := ["s"], target := ["t"],
                 synced := some "2026-02-02 00:00:00", ignore := [] }
        filesToSync := 1, copied := 1, evicted := 1, stopEnd := false
        status := "Scan and Sync completed." } := rfl
  ⟨hrun,
   (watermark_set_iff_copied_and_not_stopped _ _ _ _ _ _ _ _ _ _ hrun).1
     ⟨by decide, rfl⟩⟩

/-! ### Claim C9: stage-flag behaviour of `on_checkbox` -/

/-- Counterexample to claim C9: starting from the application's initial
flags, unchecking Scan and then checking Evict yields Evict and Copy on with
Scan still off — the states after these checkbox events violate both
"enabling evict forces scan on" and the invariant
copy-enabled implies scan-enabled. -/
theorem enable_evict_leaves_scan_off :
    (on_checkbox (on_checkbox initFlags (CbEvent.setScan false)) (CbEvent.setEvict true)).evict
        = true ∧
    (on_checkbox (on_checkbox initFlags (CbEvent.setScan false)) (CbEvent.setEvict true)).copy
        = true ∧
    (on_checkbox (on_checkbox initFlags (CbEvent.setScan false)) (CbEvent.setEvict true)).scan
        = false := by
  decide

/-- Claim C9 (amended): after every checkbox event, evict-enabled still
implies copy-enabled (the implication is preserved by every event);
disabling scan forces copy and evict off, disabling copy forces evict off,
and enabling copy forces scan on; but enabling evict forces only copy on and
leaves scan unchanged, so copy-enabled need not imply scan-enabled. -/
theorem checkbox_flag_invariants :
    (∀ f e, (f.evict = true → f.copy = true) →
       ((on_checkbox f e).evict = true → (on_checkbox f e).copy = true))
  ∧ (∀ f, on_checkbox f (CbEvent.setScan false) =
       { scan := false, copy := false, evict := false })
  ∧ (∀ f, (on_checkbox f (CbEvent.setCopy false)).evict = false)
  ∧ (∀ f, (on_checkbox f (CbEvent.setCopy true)).scan = true)
  ∧ (∀ f, (on_checkbox f (CbEvent.setEvict true)).copy = true)
  ∧ (∀ f, (on_checkbox f (CbEvent.setEvict true)).scan = f.scan) := by
  refine ⟨?_, ?_, ?_, ?_, ?_, ?_⟩
  · intro f e h
    cases e with
    | setScan b =>
      cases b with
      | false => simp [on_checkbox]
      | true => simpa [on_checkbox] using h
    | setCopy b => cases b <;> simp [on_checkbox]
    | setEvict b => cases b <;> simp [on_checkbox]
  · intro f; rfl
  · intro f; rfl
  · intro f; rfl
  · intro f; rfl
  · intro f; rfl

/-- Witness for `checkbox_flag_invariants` at the initial flags and an
Evict-enable event. -/
theorem checkbox_flag_invariants_witness :
    (initFlags.evict = true → initFlags.copy = true) ∧
    ((on_checkbox initFlags (CbEvent.setEvict true)).evict = true →
      (on_checkbox initFlags (CbEvent.setEvict true)).copy = true) :=
  ⟨by decide, checkbox_flag_invariants.1 initFlags (CbEvent.setEvict true) (by decide)⟩

/-! ### Claim C8: a cancelled scan persists nothing and logs distinctly -/

/-- Claim C8: whenever the scan is cancelled by the stop flag, it returns
zero candidates, the task's candidate list is reset to empty (no partial
list is persisted), and the logged message is the dedicated cancellation
line, which differs from the line logged by a completed scan that found no
files. -/
theorem cancelled_scan_returns_empty_and_logs_distinctly
    (env : Env) (rules : List IgnoreRule) (wm : Int) (srcDir : Path)
    (rootListable : Bool) (rootChildren : FSL)
    (h : (scanRun env rules wm srcDir rootListable rootChildren).cancelled = true) :
    (scanRun env rules wm srcDir rootListable rootChildren).count = 0
  ∧ (scanRun env rules wm srcDir rootListable rootChildren).files = []
  ∧ (scanRun env rules wm srcDir rootListable rootChildren).finalLog = scanCancelMsg
  ∧ scanCancelMsg ≠ scanFoundMsg 0 := by
  unfold scanRun at h ⊢
  by_cases hres : (walkDirectory env rules wm srcDir rootListable rootChildren
      { polls := 0, files := [], warns := [], errs := [] }).2 = WalkRes.stopped
  · simp only [hres, if_pos]
    exact ⟨trivial, trivial, trivial, by decide⟩
  · simp [hres] at h

/-- Witness for `cancelled_scan_returns_empty_and_logs_distinctly`: a scan
whose stop flag is set before the first directory entry is cancelled and
returns zero candidates. -/
theorem cancelled_scan_returns_empty_witness :
    (scanRun ⟨some 0, fun _ => false, fun _ => true, fun _ => true⟩ [] 0 ["s"]
        true (fsl [FS.file "a" 5 5])).cancelled = true
  ∧ (scanRun ⟨some 0, fun _ => false, fun _ => true, fun _ => true⟩ [] 0 ["s"]
        true (fsl [FS.file "a" 5 5])).count = 0
  ∧ (scanRun ⟨some 0, fun _ => false, fun _ => true, fun _ => true⟩ [] 0 ["s"]
        true (fsl [FS.file "a" 5 5])).files = [] :=
  ⟨by decide,
   (cancelled_scan_returns_empty_and_logs_distinctly _ _ _ _ _ _ (by decide)).1,
   (cancelled_scan_returns_empty_and_logs_distinctly _ _ _ _ _ _ (by decide)).2.1⟩

/-! ### Claim C4: empty or absent watermark crashes the scan -/

/-- Claim C4 is violated by the code: with the watermark `synced` empty the
scan entry raises `ValueError` from `time.strptime` (and `KeyError` when the
key is absent), instead of completing and treating every file as changed
since "never"; the qualifying file of the source tree is never reported. -/
theorem scan_raises_on_empty_watermark :
    scan_source_for_sync ⟨none, fun _ => false, fun _ => true, fun _ => true⟩
        { source := ["s"], target := ["t"], synced := some "", ignore := [] }
        true (fsl [FS.file "a" 5 5])
      = Except.error "ValueError: time data does not match format"
  ∧ scan_source_for_sync ⟨none, fun _ => false, fun _ => true, fun _ => true⟩
        { source := ["s"], target := ["t"], synced := none, ignore := [] }
        true (fsl [FS.file "a" 5 5])
      = Except.error "KeyError: synced" :=
  ⟨rfl, rfl⟩

/-! ### Claim C6: error handling during traversal -/

/-- Counterexample to claim C6: an `os.lstat` error on the first entry of a
directory aborts the remainder of that directory's listing — the sibling
regular file `b`, although strictly newer than the watermark (0 < 5), is
never visited and the scan collects no candidates; the error is caught at
the directory level and the scan still reports success. -/
theorem stat_error_skips_remaining_siblings :
    (walkDirectory ⟨none, fun _ => false, fun _ => true, fun _ => true⟩ [] 0 ["s"] true
        (fsl [FS.badstat "a", FS.file "b" 5 5]) { polls := 0, files := [], warns := [], errs := [] }).1.files
      = []
  ∧ (walkDirectory ⟨none, fun _ => false, fun _ => true, fun _ => true⟩ [] 0 ["s"] true
        (fsl [FS.badstat "a", FS.file "b" 5 5]) { polls := 0, files := [], warns := [], errs := [] }).2
      = WalkRes.ok
  ∧ (0 : Int) < 5 := by
  refine ⟨rfl, rfl, by decide⟩

/-- Claim C6 (amended): an error listing a subdirectory is logged and only
that subtree is skipped — traversal continues with the sibling entries of
the unlistable directory; an error stat-ing an entry, however, raises out of
the containing directory's listing loop, so the remaining siblings of the
failing entry are skipped and the error is logged against that directory;
in both cases the scan as a whole still succeeds (a `walktree` call never
propagates an exception). -/
theorem listing_error_skips_subtree_stat_error_aborts_directory :
    (∀ env rules wm nm children rest parent st,
       stopRead env.stopAt st.polls = false → should_ignore rules nm = false →
       walkList env rules wm (FSL.cons (FS.dir nm false children) rest) parent st =
         walkList env rules wm rest parent
           { st with polls := st.polls + 1, errs := st.errs ++ [parent ++ [nm]] })
  ∧ (∀ env rules wm nm rest parent st,
       stopRead env.stopAt st.polls = false →
       walkList env rules wm (FSL.cons (FS.badstat nm) rest) parent st =
         ({ st with polls := st.polls + 1 }, WalkRes.raised))
  ∧ (∀ env rules wm dirPath listable children st,
       (walkDirectory env rules wm dirPath listable children st).2 ≠ WalkRes.raised) := by
  refine ⟨?_, ?_, ?_⟩
  · intro env rules wm nm children rest parent st h hig
    simp [walkList, h, hig]
  · intro env rules wm nm rest parent st h
    simp [walkList, h]
  · intro env rules wm dirPath listable children st
    unfold walkDirectory
    cases listable with
    | false => simp
    | true =>
      rcases hw : walkList env rules wm children dirPath st with ⟨st', res⟩
      cases res <;> simp

/-- Witness for `listing_error_skips_subtree_stat_error_aborts_directory`:
a concrete unlistable subdirectory is skipped with its siblings still
processed, and a concrete stat failure raises out of the listing loop. -/
theorem listing_error_skips_subtree_witness :
    walkList ⟨none, fun _ => false, fun _ => true, fun _ => true⟩ [] 0
        (fsl [FS.dir "bad" false FSL.nil, FS.file "b" 5 5]) ["s"]
        { polls := 0, files := [], warns := [], errs := [] } =
      walkList ⟨none, fun _ => false, fun _ => true, fun _ => true⟩ [] 0
        (fsl [FS.file "b" 5 5]) ["s"]
        { polls := 1, files := [], warns := [], errs := [["s", "bad"]] }
  ∧ walkList ⟨none, fun _ => false, fun _ => true, fun _ => true⟩ [] 0
        (fsl [FS.badstat "x"]) ["s"] { polls := 0, files := [], warns := [], errs := [] } =
      ({ polls := 1, files := [], warns := [], errs := [] }, WalkRes.raised) :=
  ⟨listing_error_skips_subtree_stat_error_aborts_directory.1
      ⟨none, fun _ => false, fun _ => true, fun _ => true⟩ [] 0 "bad" FSL.nil
      (fsl [FS.file "b" 5 5]) ["s"] { polls := 0, files := [], warns := [], errs := [] }
      rfl rfl,
   listing_error_skips_subtree_stat_error_aborts_directory.2.1
      ⟨none, fun _ => false, fun _ => true, fun _ => true⟩ [] 0 "x" FSL.nil ["s"]
      { polls := 0, files := [], warns := [], errs := [] } rfl⟩

/-! ### Claim C7: candidate inclusion and unknown entry types -/

/-- Claim C7: a regular, non-ignored file reached by the scan is appended to
the candidate list exactly when its modification time or its
metadata-change time is strictly greater than the watermark; an entry that
is neither a regular file nor a directory is skipped with a warning and
contributes no candidate. -/
theorem file_candidate_iff_mtime_or_ctime_newer
    (env : Env) (rules : List IgnoreRule) (wm : Int) (nm : String) (mt ct : Int)
    (rest : FSL) (parent : Path) (st : ScanSt)
    (hstop : stopRead env.stopAt st.polls = false) :
    (should_ignore rules nm = false → (wm < mt ∨ wm < ct) →
       walkList env rules wm (FSL.cons (FS.file nm mt ct) rest) parent st =
         walkList env rules wm rest parent
           { st with polls := st.polls + 1, files := st.files ++ [(parent ++ [nm], mt)] })
  ∧ (should_ignore rules nm = false → ¬(wm < mt ∨ wm < ct) →
       walkList env rules wm (FSL.cons (FS.file nm mt ct) rest) parent st =
         walkList env rules wm rest parent { st with polls := st.polls + 1 })
  ∧ (walkList env rules wm (FSL.cons (FS.other nm) rest) parent st =
       walkList env rules wm rest parent
         { st with polls := st.polls + 1, warns := st.warns ++ [parent ++ [nm]] }) := by
  refine ⟨?_, ?_, ?_⟩
  · intro hig hnew
    simp [walkList, hstop, hig, hnew]
  · intro hig hnew
    simp [walkList, hstop, hig, hnew]
  · simp [walkList, hstop]

/-- Witness for `file_candidate_iff_mtime_or_ctime_newer`: a concrete fresh
file is appended, a concrete stale file is not. -/
theorem file_candidate_witness :
    walkList ⟨none, fun _ => false, fun _ => true, fun _ => true⟩ [] 0
        (fsl [FS.file "new" 5 0]) ["s"] { polls := 0, files := [], warns := [], errs := [] } =
      walkList ⟨none, fun _ => false, fun _ => true, fun _ => true⟩ [] 0
        FSL.nil ["s"] { polls := 1, files := [(["s", "new"], 5)], warns := [], errs := [] }
  ∧ walkList ⟨none, fun _ => false, fun _ => true, fun _ => true⟩ [] 0
        (fsl [FS.file "old" (-5) (-5)]) ["s"] { polls := 0, files := [], warns := [], errs := [] } =
      walkList ⟨none, fun _ => false, fun _ => true, fun _ => true⟩ [] 0
        FSL.nil ["s"] { polls := 1, files := [], warns := [], errs := [] } :=
  ⟨(file_candidate_iff_mtime_or_ctime_newer
      ⟨none, fun _ => false, fun _ => true, fun _ => true⟩ [] 0 "new" 5 0 FSL.nil ["s"]
      { polls := 0, files := [], warns := [], errs := [] } rfl).1 rfl (by decide),
   (file_candidate_iff_mtime_or_ctime_newer
      ⟨none, fun _ => false, fun _ => true, fun _ => true⟩ [] 0 "old" (-5) (-5) FSL.nil ["s"]
      { polls := 0, files := [], warns := [], errs := [] } rfl).2.1 rfl (by decide)⟩

end SyncDB
